import Mathlib

/-!
Shallow embedding of `src/upstream_utils/one_day.py` (eCallisto day assembly):
circular file ordering (`circular_sort`), burst-index alignment (`find_bursts`),
day assembly (`one_day`), and the burst-label table parser (`extract_bursts`).

Python integers are unbounded, so they are modelled as `Int`/`Nat`.  A Python
run that aborts (uncaught exception, `exit`) is modelled as `Except.error ()`.
The float comparison `bstart_sec < file_start_sec + nx / 4` is exact for the
integers involved and is modelled by the equivalent `4*bstart < 4*fs + nx`.
-/

namespace Helio

/-- Numeric value of an ASCII digit character, as Python `int` uses it. -/
def digitVal (c : Char) : Nat := c.toNat - 48

/-- `hhmmss_to_seconds` from `circular_sort` (the same inline formula appears in
`find_bursts`): `int(hhmmss[:2])*3600 + int(hhmmss[2:4])*60 + int(hhmmss[4:6])`.
Only ever applied to six-digit regex matches (and the six-digit offset). -/
def hhmmss_to_seconds : List Char → Nat
  | d1 :: d2 :: d3 :: d4 :: d5 :: d6 :: _ =>
    (10 * digitVal d1 + digitVal d2) * 3600 + (10 * digitVal d3 + digitVal d4) * 60 +
      (10 * digitVal d5 + digitVal d6)
  | _ => 0

/-- Attempt of the regex `_(\d{6})_` at the current position: an underscore,
six digits, an underscore.  Returns the captured six digits. -/
def headMatchA : List Char → Option (List Char)
  | '_' :: d1 :: d2 :: d3 :: d4 :: d5 :: d6 :: '_' :: _ =>
    if d1.isDigit && d2.isDigit && d3.isDigit && d4.isDigit && d5.isDigit && d6.isDigit then
      some [d1, d2, d3, d4, d5, d6]
    else none
  | _ => none

/-- Attempt of the regex `_(\d{6})i` at the current position. -/
def headMatchB : List Char → Option (List Char)
  | '_' :: d1 :: d2 :: d3 :: d4 :: d5 :: d6 :: 'i' :: _ =>
    if d1.isDigit && d2.isDigit && d3.isDigit && d4.isDigit && d5.isDigit && d6.isDigit then
      some [d1, d2, d3, d4, d5, d6]
    else none
  | _ => none

/-- `re.search` with pattern A `_(\d{6})_`: leftmost match, captured digits. -/
def searchTimeA : List Char → Option (List Char)
  | [] => none
  | c :: rest =>
    match headMatchA (c :: rest) with
    | some ds => some ds
    | none => searchTimeA rest

/-- `re.search` with pattern B `_(\d{6})i`: leftmost match, captured digits. -/
def searchTimeB : List Char → Option (List Char)
  | [] => none
  | c :: rest =>
    match headMatchB (c :: rest) with
    | some ds => some ds
    | none => searchTimeB rest

/-- The two recognized timestamp patterns of `circular_sort`. -/
inductive Pat | A | B
deriving DecidableEq, Repr

/-- Search with the currently chosen pattern (`time_re.search`). -/
def searchPat : Pat → List Char → Option (List Char)
  | .A, cs => searchTimeA cs
  | .B, cs => searchTimeB cs

/-- Pattern choice of `circular_sort`, lines 56-67: pattern A is tried on
`files[0]`; on failure pattern B is tried on `files[0]`; if both fail the run
aborts (`exit(0)`). -/
def choosePat (f0 : String) : Option Pat :=
  if (searchTimeA f0.data).isSome then some .A
  else if (searchTimeB f0.data).isSome then some .B
  else none

/-- `time_file_pairs`: each file whose name matches the chosen pattern is mapped
to `(time_in_seconds, filename)`; non-matching files are silently dropped. -/
def time_file_pairs (p : Pat) (files : List String) : List (Nat × String) :=
  files.filterMap fun f => (searchPat p f.data).map fun ds => (hhmmss_to_seconds ds, f)

/-- Comparison used by `time_file_pairs.sort(key=lambda x: x[0])`. -/
def pairLe (a b : Nat × String) : Prop := a.1 ≤ b.1

instance : DecidableRel pairLe := fun a b => Nat.decLe a.1 b.1

/-- Python `list.sort` with key `x[0]` is a stable ascending sort by time;
modelled by Mathlib's stable insertion sort under `pairLe`. -/
def sortPairs (l : List (Nat × String)) : List (Nat × String) :=
  l.insertionSort pairLe

/-- `next((i for i, t in enumerate(times) if t >= offset_sec), None)` part of
line 85: index of the first time `>= off`, if any. -/
def firstGe (off : Nat) : List Nat → Option Nat
  | [] => none
  | t :: ts => if off ≤ t then some 0 else (firstGe off ts).map Nat.succ

/-- Line 85 in full: the rotation index, with default `0` when no time is
`>= offset_sec`. -/
def rotIdx (sorted : List (Nat × String)) (off : Nat) : Nat :=
  (firstGe off (sorted.map Prod.fst)).getD 0

/-- The `circular_sort` pipeline after a pattern has been chosen: filter and
pair with times, stable-sort ascending by time, rotate at the first position
whose time is `>= offset`. -/
def patOutput (p : Pat) (files : List String) (offset : String) : List String :=
  let sorted := sortPairs (time_file_pairs p files)
  let idx := rotIdx sorted (hhmmss_to_seconds offset.data)
  (sorted.drop idx).map Prod.snd ++ (sorted.take idx).map Prod.snd

/-- `circular_sort(files, offset, url)`.  `files[0]` on an empty list raises
`IndexError`, and a failed pattern choice calls `exit(0)`; both abort the run
and are modelled as `Except.error ()`. -/
def circular_sort (files : List String) (offset : String) : Except Unit (List String) :=
  match files with
  | [] => .error ()
  | f0 :: _ =>
    match choosePat f0 with
    | none => .error ()
    | some p => .ok (patOutput p files offset)

/-- A decoded FITS payload: a 2D array, axis 0 = frequency bins, axis 1 = time
samples.  Numpy arrays are rectangular; theorems that depend on the shape carry
an explicit uniform-row-length hypothesis. -/
abbrev Arr := List (List Int)

/-- `_, nx = arr.shape`: the time-axis sample count of a rectangular 2D array. -/
def nxOf (arr : Arr) : Nat := (arr.headD []).length

/-- `np.flipud`: reverse the order of the rows (axis 0, the frequency axis). -/
def flipud (arr : Arr) : Arr := arr.reverse

/-- `np.concatenate(a :: rest, axis=1)`: glue the arrays along the time axis,
row by row.  Numpy requires equal row counts; theorems carry that hypothesis. -/
def concat_axis1 (a : Arr) (rest : List Arr) : Arr :=
  rest.foldl (fun acc b => acc.zipWith (· ++ ·) b) a

/-- One burst-index record appended by `find_bursts`
(`{"burst": ..., "start_idx": ..., "end_idx": ...}`). -/
structure BurstIdx where
  burst : String
  start_idx : Int
  end_idx : Int
deriving DecidableEq, Repr

/-- Python `str.split(sep)` for a one-character separator (the only separators
the source uses are `"-"`, `":"`, `"\t"` and `","`): split at every occurrence,
keeping empty parts. -/
def splitOnChar (sep : Char) : List Char → List Char → List (List Char)
  | [], cur => [cur.reverse]
  | c :: rest, cur =>
    if c = sep then cur.reverse :: splitOnChar sep rest []
    else splitOnChar sep rest (c :: cur)

/-- Python `int` on an all-digit token (no sign, no surrounding space — the
shapes the burst table provides); anything else raises (`none`). -/
def parseNatChars (ds : List Char) : Option Nat :=
  if ds = [] then none
  else if ds.all Char.isDigit then some (ds.foldl (fun n c => 10 * n + digitVal c) 0)
  else none

/-- Python `int` including an optional leading sign. -/
def parseIntChars : List Char → Option Int
  | '-' :: ds => (parseNatChars ds).map fun n => -(n : Int)
  | '+' :: ds => (parseNatChars ds).map fun n => (n : Int)
  | ds => (parseNatChars ds).map fun n => (n : Int)

/-- `parse_time_str` inside `find_bursts`: split on `:`, convert every part to
an integer, and accept exactly two (`HH:MM`, seconds zero) or exactly three
(`HH:MM:SS`) parts; everything else raises in Python (`none` here). -/
def parse_time_str (tstr : List Char) : Option Int :=
  match (splitOnChar ':' tstr []).mapM parseIntChars with
  | some [h, m] => some (h * 3600 + m * 60)
  | some [h, m, s] => some (h * 3600 + m * 60 + s)
  | _ => none

/-- The body of the `for burst in burst_list` loop of `find_bursts`, for one
burst string: split at `-`, parse both endpoints, test overlap
(`bstart_sec < file_end_sec and bend_sec >= file_start_sec`, with the float
`file_end_sec = fs + nx / 4` compared exactly), and on overlap build the
record with the clipped local indices shifted by the cursor and the fixed
±240-sample margin.  Parse failures raise (`Except.error`). -/
def processBurst (fs : Int) (nx : Nat) (ci : Nat) (burst : String) :
    Except Unit (Option BurstIdx) :=
  match splitOnChar '-' burst.data [] with
  | [bs_str, be_str] =>
    match parse_time_str bs_str, parse_time_str be_str with
    | some bstart, some bend =>
      if 4 * bstart < 4 * fs + (nx : Int) ∧ fs ≤ bend then
        .ok (some { burst := burst,
                    start_idx := max 0 ((bstart - fs) * 4) + (ci : Int) - 4 * 60,
                    end_idx := min ((nx : Int) - 1) ((bend - fs) * 4) + (ci : Int) + 4 * 60 })
      else .ok none
    | _, _ => .error ()
  | _ => .error ()

/-- The `for burst in burst_list` loop of `find_bursts`: overlapping bursts are
appended to the running `results` list in table order. -/
def burstLoop (fs : Int) (nx : Nat) (ci : Nat) :
    List String → List BurstIdx → Except Unit (List BurstIdx)
  | [], acc => .ok acc
  | b :: bs, acc =>
    match processBurst fs nx ci b with
    | .error e => .error e
    | .ok none => burstLoop fs nx ci bs acc
    | .ok (some r) => burstLoop fs nx ci bs (acc ++ [r])

/-- `find_bursts(arr, burst_list, filename, results, current_idx)`.  The file
start time is recovered from the filename with pattern A only
(`re.search(r"_(\d{6})_", filename)`); if that search fails, `.group(1)` on
`None` raises `AttributeError` (`Except.error`).  The function returns the
updated results list together with `current_idx + nx`. -/
def find_bursts (arr : Arr) (burst_list : List String) (filename : String)
    (results : List BurstIdx) (current_idx : Nat) : Except Unit (List BurstIdx × Nat) :=
  match searchTimeA filename.data with
  | none => .error ()
  | some ds =>
    match burstLoop ((hhmmss_to_seconds ds : Nat) : Int) (nxOf arr) current_idx
        burst_list results with
    | .error e => .error e
    | .ok rs => .ok (rs, current_idx + nxOf arr)

/-- The download loop of `one_day` (lines 192-200).  `fetch` stands for
`download_fits_from_gz`: it either raises (`Except.error`, which the loop does
not catch, so the whole loop aborts), or returns a value, which the loop keeps
unless it is `None` (`Option.none` — the only skipped case). -/
def one_day_loop (fetch : String → Except Unit (Option Arr))
    (burst_list : Option (List String)) :
    List String → List Arr → List BurstIdx → Nat →
    Except Unit (List Arr × List BurstIdx × Nat)
  | [], arrays, bidx, ci => .ok (arrays, bidx, ci)
  | f :: rest, arrays, bidx, ci =>
    match fetch f with
    | .error e => .error e
    | .ok none => one_day_loop fetch burst_list rest arrays bidx ci
    | .ok (some arr) =>
      match burst_list with
      | none => one_day_loop fetch burst_list rest (arrays ++ [arr]) bidx ci
      | some bl =>
        match find_bursts arr bl f bidx ci with
        | .error e => .error e
        | .ok (bidx2, ci2) => one_day_loop fetch burst_list rest (arrays ++ [arr]) bidx2 ci2

/-- `one_day` from the station-filtered file list onward (the HTTP directory
listing is the external collaborator; it delivers `station_files` already
filtered to the station).  Empty `station_files` aborts (`exit(0)`); after the
loop, an empty `arrays` raises `ValueError`; otherwise the arrays are
concatenated along the time axis and flipped along the frequency axis. -/
def one_day (fetch : String → Except Unit (Option Arr)) (station_files : List String)
    (time : String) (burst_list : Option (List String)) :
    Except Unit (Arr × List BurstIdx) :=
  match station_files with
  | [] => .error ()
  | _ :: _ =>
    match circular_sort station_files time with
    | .error e => .error e
    | .ok sorted_files =>
      match one_day_loop fetch burst_list sorted_files [] [] 0 with
      | .error e => .error e
      | .ok (arrays, bidx, _) =>
        match arrays with
        | [] => .error ()
        | a :: rest => .ok (flipud (concat_axis1 a rest), bidx)

/-- Zero-padded decimal rendering, as Python `f"{n:04d}"` for nonnegative `n`. -/
def padNum (w : Nat) (n : Nat) : String :=
  let s := toString n
  String.mk (List.replicate (w - s.length) '0') ++ s

/-- Python `str.strip()` with no argument: drop whitespace from both ends. -/
def trimChars (cs : List Char) : List Char :=
  ((cs.dropWhile Char.isWhitespace).reverse.dropWhile Char.isWhitespace).reverse

/-- Python `str.startswith` for a one-character prefix. -/
def startsWithChar (c : Char) : List Char → Bool
  | [] => false
  | d :: _ => d = c

/-- The `for line in lines` loop of `extract_bursts`: skip blank
(`not line.strip()`), `#`-prefixed and `-`-prefixed lines; split on tabs; skip
lines with fewer than 4 fields; unpack `line_date, time_range, _, stations =
parts`, which in Python raises `ValueError` when there are more than 4 fields
(`Except.error`); keep the time-range field of rows whose date equals `date`
and whose comma-separated station list contains `station` after stripping. -/
def extractLoop (date station : List Char) :
    List (List Char) → List (List Char) → Except Unit (List (List Char))
  | [], acc => .ok acc
  | line :: rest, acc =>
    if (trimChars line).isEmpty || startsWithChar '#' line || startsWithChar '-' line then
      extractLoop date station rest acc
    else
      let parts := splitOnChar '\t' line []
      if parts.length < 4 then extractLoop date station rest acc
      else
        match parts with
        | [line_date, time_range, _, stations] =>
          if line_date = date ∧ station ∈ (splitOnChar ',' stations []).map trimChars then
            extractLoop date station rest (acc ++ [time_range])
          else extractLoop date station rest acc
        | _ => .error ()

/-- `extract_bursts(station, year, month, day)` applied to the downloaded
monthly table, given as its list of lines (`resp.text.splitlines()`); returns
the kept time-range fields. -/
def extract_bursts (lines : List String) (year month day : Nat) (station : String) :
    Except Unit (List (List Char)) :=
  extractLoop (padNum 4 year ++ padNum 2 month ++ padNum 2 day).data station.data
    (lines.map String.data) []

/-- Clamp exactly as the specification words it: `clamp(v, lo, hi)`. -/
def specClamp (v lo hi : Int) : Int := max lo (min hi v)

/-! ### Helper lemmas -/

/-- The burst loop only ever appends to its accumulator: its result is the
incoming accumulator followed by what the loop appends from an empty one. -/
theorem burstLoop_acc (fs : Int) (nx ci : Nat) (bs : List String) :
    ∀ acc : List BurstIdx, burstLoop fs nx ci bs acc =
      (burstLoop fs nx ci bs []).map fun app => acc ++ app := by
  induction bs with
  | nil => intro acc; simp [burstLoop, Except.map]
  | cons b bs ih =>
    intro acc
    cases hb : processBurst fs nx ci b with
    | error e => simp [burstLoop, hb, Except.map]
    | ok o =>
      cases o with
      | none => simp only [burstLoop, hb]; exact ih acc
      | some r =>
        simp only [burstLoop, hb, List.nil_append]
        rw [ih (acc ++ [r]), ih [r]]
        cases burstLoop fs nx ci bs [] <;> simp [Except.map, List.append_assoc]

/-- A successful `find_bursts` call returns the cursor advanced by exactly the
file's sample count. -/
theorem find_bursts_cursor (arr : Arr) (bl : List String) (filename : String)
    (results : List BurstIdx) (ci : Nat) (rs : List BurstIdx) (ci' : Nat)
    (h : find_bursts arr bl filename results ci = .ok (rs, ci')) :
    ci' = ci + nxOf arr := by
  cases hA : searchTimeA filename.data with
  | none => simp [find_bursts, hA] at h
  | some ds =>
    cases hL : burstLoop ((hhmmss_to_seconds ds : Nat) : Int) (nxOf arr) ci bl results with
    | error e => simp [find_bursts, hA, hL] at h
    | ok rs0 =>
      simp [find_bursts, hA, hL] at h
      omega

/-! ### C3 -/

/-- C3: for a burst with parsed endpoints and a file with pattern-A start time
and a positive sample count, `find_bursts` appends exactly one record for the
(burst, file) pair iff `burstStart < fileStartSeconds + fileSampleCount/4` and
`burstEnd >= fileStartSeconds` (the float bound compared exactly), and the
record is `start_idx = cursor + clamp((burstStart-fs)*4, 0, nx-1) - 240`,
`end_idx = cursor + clamp((burstEnd-fs)*4, 0, nx-1) + 240`: the ±240 margin is
added after clipping and never re-clipped, so the stored indices may lie
outside the assembled series. -/
theorem C3_burst_alignment (arr : Arr) (filename burst : String) (s1 s2 ds : List Char)
    (bstart bend : Int) (results : List BurstIdx) (ci : Nat)
    (hA : searchTimeA filename.data = some ds)
    (hsplit : splitOnChar '-' burst.data [] = [s1, s2])
    (h1 : parse_time_str s1 = some bstart)
    (h2 : parse_time_str s2 = some bend)
    (hnx : 1 ≤ nxOf arr) :
    find_bursts arr [burst] filename results ci =
      .ok ((if 4 * bstart < 4 * ((hhmmss_to_seconds ds : Nat) : Int) + (nxOf arr : Int) ∧
               ((hhmmss_to_seconds ds : Nat) : Int) ≤ bend then
              results ++
                [{ burst := burst,
                   start_idx := ((ci : Int) +
                     specClamp ((bstart - ((hhmmss_to_seconds ds : Nat) : Int)) * 4)
                       0 ((nxOf arr : Int) - 1) - 240),
                   end_idx := ((ci : Int) +
                     specClamp ((bend - ((hhmmss_to_seconds ds : Nat) : Int)) * 4)
                       0 ((nxOf arr : Int) - 1) + 240) }]
            else results), ci + nxOf arr) := by
  simp only [find_bursts, hA, burstLoop, processBurst, hsplit, h1, h2]
  split_ifs with hc
  · have hstart : max 0 ((bstart - ((hhmmss_to_seconds ds : Nat) : Int)) * 4) + (ci : Int) - 4 * 60 =
        (ci : Int) + specClamp ((bstart - ((hhmmss_to_seconds ds : Nat) : Int)) * 4)
          0 ((nxOf arr : Int) - 1) - 240 := by
      simp only [specClamp]
      omega
    have hend : min ((nxOf arr : Int) - 1) ((bend - ((hhmmss_to_seconds ds : Nat) : Int)) * 4) +
        (ci : Int) + 4 * 60 =
        (ci : Int) + specClamp ((bend - ((hhmmss_to_seconds ds : Nat) : Int)) * 4)
          0 ((nxOf arr : Int) - 1) + 240 := by
      simp only [specClamp]
      omega
    rw [hstart, hend]
  · simp [burstLoop]

set_option maxRecDepth 8000 in
/-- C3 witness: a file spanning 09:00:00 for 900 samples and the burst
09:00:30-09:01:00 produce the single padded record (-120, 480). -/
theorem C3_burst_alignment_witness :
    searchTimeA "AA_090000_x.fit.gz".data = some ['0', '9', '0', '0', '0', '0'] ∧
    splitOnChar '-' ("09:00:30-09:01:00").data [] = ["09:00:30".data, "09:01:00".data] ∧
    parse_time_str "09:00:30".data = some 32430 ∧
    parse_time_str "09:01:00".data = some 32460 ∧
    1 ≤ nxOf [List.replicate 900 0] ∧
    find_bursts [List.replicate 900 0] ["09:00:30-09:01:00"] "AA_090000_x.fit.gz" [] 0 =
      .ok ([{ burst := "09:00:30-09:01:00", start_idx := -120, end_idx := 480 }], 900) := by
  refine ⟨rfl, rfl, rfl, rfl, by decide, ?_⟩
  rw [C3_burst_alignment [List.replicate 900 0] "AA_090000_x.fit.gz" "09:00:30-09:01:00"
    "09:00:30".data "09:01:00".data ['0', '9', '0', '0', '0', '0'] 32430 32460 [] 0 rfl rfl rfl
    rfl (by decide)]
  rfl

/-! ### C7 -/

/-- C7 counterexample: `find_bursts` does not leave the cursor unchanged — even
with an empty burst list it returns the cursor advanced by the file's sample
count (5 becomes 8 for a 3-sample file), so the advancement is performed inside
the aligner, not by the caller afterwards. -/
theorem C7_cex_align_changes_cursor :
    find_bursts [[0, 0, 0]] [] "AA_000000_x.fit.gz" [] 5 = .ok ([], 8) ∧ (8 : Nat) ≠ 5 :=
  ⟨rfl, by decide⟩

/-- C7 amended: a successful `find_bursts` call itself advances the cursor by
the file's sample count and returns the advanced value (which `one_day` adopts
without further change), while every record it appends is computed from the
incoming, pre-advancement cursor. -/
theorem C7_align_advances_cursor (arr : Arr) (bl : List String) (filename : String)
    (results : List BurstIdx) (ci : Nat) (ds : List Char) (rs : List BurstIdx) (ci' : Nat)
    (hA : searchTimeA filename.data = some ds)
    (h : find_bursts arr bl filename results ci = .ok (rs, ci')) :
    ci' = ci + nxOf arr ∧
    ∃ app, burstLoop ((hhmmss_to_seconds ds : Nat) : Int) (nxOf arr) ci bl [] = .ok app ∧
      rs = results ++ app := by
  cases hL : burstLoop ((hhmmss_to_seconds ds : Nat) : Int) (nxOf arr) ci bl results with
  | error e => simp [find_bursts, hA, hL] at h
  | ok rs0 =>
    simp [find_bursts, hA, hL] at h
    rw [burstLoop_acc ((hhmmss_to_seconds ds : Nat) : Int) (nxOf arr) ci bl results] at hL
    cases hE : burstLoop ((hhmmss_to_seconds ds : Nat) : Int) (nxOf arr) ci bl [] with
    | error e => rw [hE] at hL; simp [Except.map] at hL
    | ok app =>
      rw [hE] at hL
      simp [Except.map] at hL
      exact ⟨by omega, app, rfl, by rw [← h.1, ← hL]⟩

/-- C7 witness for the amended theorem, at a 2-sample file with one
all-day burst and incoming cursor 7: the returned cursor is 9 and the appended
record was computed from cursor 7. -/
theorem C7_align_advances_cursor_witness :
    searchTimeA "AA_010000_x.fit.gz".data = some ['0', '1', '0', '0', '0', '0'] ∧
    find_bursts [[(0 : Int), 0]] ["00:00-23:59"] "AA_010000_x.fit.gz" [] 7 =
      .ok ([{ burst := "00:00-23:59", start_idx := -233, end_idx := 248 }], 9) ∧
    (9 = 7 + nxOf [[(0 : Int), 0]] ∧
      ∃ app, burstLoop ((hhmmss_to_seconds ['0', '1', '0', '0', '0', '0'] : Nat) : Int)
          (nxOf [[(0 : Int), 0]]) 7 ["00:00-23:59"] [] = .ok app ∧
        [{ burst := "00:00-23:59", start_idx := -233, end_idx := 248 }] =
          ([] : List BurstIdx) ++ app) :=
  ⟨rfl, rfl, C7_align_advances_cursor [[(0 : Int), 0]] ["00:00-23:59"] "AA_010000_x.fit.gz"
    [] 7 ['0', '1', '0', '0', '0', '0'] _ 9 rfl rfl⟩

/-! ### C1 -/

/-- A fetch oracle for the C1 counterexample: the download of the first file
raises, the download of the second succeeds. -/
def c1fetch : String → Except Unit (Option Arr) := fun f =>
  if f = "AA_010000_a.fit.gz" then .error () else .ok (some [[1]])

/-- C1 counterexample: when the fetch of an individual file fails, the file is
not skipped — the whole run aborts.  The second file fetches fine, yet the loop
(and `one_day` itself) returns an error instead of a result built from it. -/
theorem C1_cex_fetch_failure_not_skipped :
    one_day_loop c1fetch none ["AA_010000_a.fit.gz", "AA_020000_b.fit.gz"] [] [] 0 =
      .error () ∧
    c1fetch "AA_020000_b.fit.gz" = .ok (some [[1]]) ∧
    one_day c1fetch ["AA_010000_a.fit.gz", "AA_020000_b.fit.gz"] "000000" none = .error () :=
  ⟨rfl, rfl, rfl⟩

/-- C1 amended: `download_fits_from_gz` either raises or returns an array, and
the download loop catches nothing, so a fetch/decode failure of any listed file
aborts the entire run: no later file is processed and no spectrogram is
produced.  (Only a `None` decode result — which the downloader never produces —
would be skipped.) -/
theorem C1_fetch_failure_aborts_run (fetch : String → Except Unit (Option Arr))
    (bl : Option (List String)) (files : List String) (f : String)
    (hf : f ∈ files) (herr : fetch f = .error ()) :
    ∀ arrays bidx ci, one_day_loop fetch bl files arrays bidx ci = .error () := by
  induction files with
  | nil => cases hf
  | cons g gs ih =>
    intro arrays bidx ci
    rcases List.mem_cons.mp hf with hg | hgs
    · subst hg
      simp [one_day_loop, herr]
    · cases hfg : fetch g with
      | error e => cases e; simp [one_day_loop, hfg]
      | ok o =>
        cases o with
        | none =>
          simp only [one_day_loop, hfg]
          exact ih hgs arrays bidx ci
        | some arr =>
          cases bl with
          | none =>
            simp only [one_day_loop, hfg]
            exact ih hgs (arrays ++ [arr]) bidx ci
          | some bl' =>
            cases hfb : find_bursts arr bl' g bidx ci with
            | error e => cases e; simp [one_day_loop, hfg, hfb]
            | ok p =>
              obtain ⟨b2, c2⟩ := p
              simp only [one_day_loop, hfg, hfb]
              exact ih hgs (arrays ++ [arr]) b2 c2

/-- C1 witness: the failing file sits second in the list; the first file is
fetched, yet the loop still ends in an error. -/
theorem C1_fetch_failure_aborts_run_witness :
    "AA_010000_a.fit.gz" ∈ ["AA_030000_c.fit.gz", "AA_010000_a.fit.gz"] ∧
    c1fetch "AA_010000_a.fit.gz" = .error () ∧
    one_day_loop c1fetch none ["AA_030000_c.fit.gz", "AA_010000_a.fit.gz"] [] [] 0 =
      .error () :=
  ⟨by simp, rfl,
    C1_fetch_failure_aborts_run c1fetch none ["AA_030000_c.fit.gz", "AA_010000_a.fit.gz"]
      "AA_010000_a.fit.gz" (by simp) rfl [] [] 0⟩

/-! ### C2 -/

/-- C2 counterexample: the pattern decision is made on the first file only.
The set contains a pattern-A filename (`BB_123456_x`), yet because the first
file matches only pattern B the whole set is processed with pattern B and the
A-only file is dropped; and a set whose first file matches neither pattern
fails fatally even though another file in the set matches pattern A. -/
theorem C2_cex_fallback_is_first_file_only :
    searchTimeA "BB_123456_x.fit.gz".data = some ['1', '2', '3', '4', '5', '6'] ∧
    circular_sort ["AA_123456i.fit.gz", "BB_123456_x.fit.gz"] "000000" =
      .ok ["AA_123456i.fit.gz"] ∧
    circular_sort ["CCDD.fit.gz", "BB_123456_x.fit.gz"] "000000" = .error () :=
  ⟨rfl, rfl, rfl⟩

/-- C2 amended: the two-stage pattern fallback of `circular_sort` is decided by
the first filename alone: pattern A is used iff the first filename matches A,
pattern B is used iff the first filename fails A but matches B, and the run
aborts iff the first filename matches neither — regardless of what the rest of
the set matches. -/
theorem C2_first_file_decides_pattern (f0 : String) (rest : List String) (offset : String) :
    (circular_sort (f0 :: rest) offset = .error () ↔
      searchTimeA f0.data = none ∧ searchTimeB f0.data = none) ∧
    ((searchTimeA f0.data).isSome →
      circular_sort (f0 :: rest) offset = .ok (patOutput .A (f0 :: rest) offset)) ∧
    (searchTimeA f0.data = none → (searchTimeB f0.data).isSome →
      circular_sort (f0 :: rest) offset = .ok (patOutput .B (f0 :: rest) offset)) := by
  cases hA : searchTimeA f0.data with
  | some ds => simp [circular_sort, choosePat, hA]
  | none =>
    cases hB : searchTimeB f0.data with
    | some ds => simp [circular_sort, choosePat, hA, hB]
    | none => simp [circular_sort, choosePat, hA, hB]

/-- C2 witness: a first file matching only pattern B forces pattern B for the
whole set. -/
theorem C2_first_file_decides_pattern_witness :
    searchTimeA "AA_123456i.fit.gz".data = none ∧
    (searchTimeB "AA_123456i.fit.gz".data).isSome = true ∧
    circular_sort ["AA_123456i.fit.gz", "BB_654321_y.fit.gz"] "000000" =
      .ok (patOutput .B ["AA_123456i.fit.gz", "BB_654321_y.fit.gz"] "000000") :=
  ⟨rfl, rfl,
    (C2_first_file_decides_pattern "AA_123456i.fit.gz" ["BB_654321_y.fit.gz"] "000000").2.2
      rfl rfl⟩

/-! ### C4 -/

/-- A successful run of the download loop advances the cursor by exactly the
sum of the sample counts of the decoded arrays. -/
theorem one_day_loop_cursor_sum (fetch : String → Except Unit (Option Arr))
    (A : String → Arr) (bl : List String) :
    ∀ (files : List String) (arrays : List Arr) (bidx : List BurstIdx) (ci : Nat)
      (arrays2 : List Arr) (bidx2 : List BurstIdx) (ci2 : Nat),
      (∀ f ∈ files, fetch f = .ok (some (A f))) →
      one_day_loop fetch (some bl) files arrays bidx ci = .ok (arrays2, bidx2, ci2) →
      ci2 = ci + (files.map fun f => nxOf (A f)).sum := by
  intro files
  induction files with
  | nil =>
    intro arrays bidx ci a2 b2 c2 _ h
    simp only [one_day_loop, Except.ok.injEq, Prod.mk.injEq] at h
    simp [← h.2.2]
  | cons g gs ih =>
    intro arrays bidx ci a2 b2 c2 hfetch h
    have h1 : fetch g = .ok (some (A g)) := hfetch g (List.mem_cons_self g gs)
    simp only [one_day_loop, h1] at h
    cases hfb : find_bursts (A g) bl g bidx ci with
    | error e => rw [hfb] at h; cases h
    | ok p =>
      obtain ⟨bx, cx⟩ := p
      rw [hfb] at h
      have hcx : cx = ci + nxOf (A g) := find_bursts_cursor (A g) bl g bidx ci bx cx hfb
      have h2 := ih (arrays ++ [A g]) bx cx a2 b2 c2 (fun f hf => hfetch f (List.mem_cons_of_mem g hf)) h
      simp only [List.map_cons, List.sum_cons]
      omega

/-- A successful run of the download loop over `pre ++ rest` passes through a
state where the remaining work is exactly `rest`, the collected arrays are the
decodes of `pre`, and the cursor has advanced by the sample counts of `pre`:
the file at position `|pre|` observes the cursor `ci + sum of widths of pre`. -/
theorem one_day_loop_split (fetch : String → Except Unit (Option Arr))
    (A : String → Arr) (bl : List String) :
    ∀ (pre rest : List String) (arrays : List Arr) (bidx : List BurstIdx) (ci : Nat)
      (r : List Arr × List BurstIdx × Nat),
      (∀ f ∈ pre, fetch f = .ok (some (A f))) →
      one_day_loop fetch (some bl) (pre ++ rest) arrays bidx ci = .ok r →
      ∃ bidx3, one_day_loop fetch (some bl) rest (arrays ++ pre.map A) bidx3
          (ci + (pre.map fun f => nxOf (A f)).sum) = .ok r := by
  intro pre
  induction pre with
  | nil =>
    intro rest arrays bidx ci r _ h
    exact ⟨bidx, by simpa using h⟩
  | cons g gs ih =>
    intro rest arrays bidx ci r hfetch h
    have h1 : fetch g = .ok (some (A g)) := hfetch g (List.mem_cons_self g gs)
    simp only [List.cons_append, one_day_loop, h1] at h
    cases hfb : find_bursts (A g) bl g bidx ci with
    | error e => rw [hfb] at h; cases h
    | ok p =>
      obtain ⟨bx, cx⟩ := p
      rw [hfb] at h
      have hcx : cx = ci + nxOf (A g) := find_bursts_cursor (A g) bl g bidx ci bx cx hfb
      obtain ⟨bidx3, hh⟩ := ih rest (arrays ++ [A g]) bx cx r
        (fun f hf => hfetch f (List.mem_cons_of_mem g hf)) h
      refine ⟨bidx3, ?_⟩
      have harr : arrays ++ [A g] ++ gs.map A = arrays ++ (g :: gs).map A := by
        simp [List.append_assoc]
      have hci : cx + (gs.map fun f => nxOf (A f)).sum =
          ci + ((g :: gs).map fun f => nxOf (A f)).sum := by
        simp only [List.map_cons, List.sum_cons]
        omega
      rw [harr, hci] at hh
      exact hh

/-- The decoded arrays of the C4 run: 900, 850 and 900 time samples. -/
def c4arrA : Arr := [List.replicate 900 0]

/-- The 850-sample array of the C4 run. -/
def c4arrB : Arr := [List.replicate 850 0]

/-- Decode oracle of the C4 run. -/
def c4A : String → Arr := fun f => if f = "ST_020000_x.gz" then c4arrB else c4arrA

/-- Fetch oracle of the C4 run: every download succeeds. -/
def c4fetch : String → Except Unit (Option Arr) := fun f =>
  if f = "ST_020000_x.gz" then .ok (some c4arrB) else .ok (some c4arrA)

/-- File list of the C4 run. -/
def c4files : List String := ["ST_010000_x.gz", "ST_020000_x.gz", "ST_030000_x.gz"]

set_option maxRecDepth 20000 in
/-- C4: the cursor passed to `find_bursts` for the k-th decoded file is the sum
of the sample counts of files 1..k-1 (split property), the final cursor is the
sum over all decoded files and never decreases (sum property), and for sample
counts [900, 850, 900] the observed cursors are [0, 900, 1750] (visible as the
appended records' `start_idx = cursor - 240` for an all-day burst) with final
total 2650. -/
theorem C4_cursor_partial_sums :
    (∀ (fetch : String → Except Unit (Option Arr)) (A : String → Arr) (bl : List String)
        (files : List String) (arrays : List Arr) (bidx : List BurstIdx) (ci : Nat)
        (arrays2 : List Arr) (bidx2 : List BurstIdx) (ci2 : Nat),
      (∀ f ∈ files, fetch f = .ok (some (A f))) →
      one_day_loop fetch (some bl) files arrays bidx ci = .ok (arrays2, bidx2, ci2) →
      ci2 = ci + (files.map fun f => nxOf (A f)).sum ∧ ci ≤ ci2) ∧
    (∀ (fetch : String → Except Unit (Option Arr)) (A : String → Arr) (bl : List String)
        (pre rest : List String) (arrays : List Arr) (bidx : List BurstIdx) (ci : Nat)
        (r : List Arr × List BurstIdx × Nat),
      (∀ f ∈ pre, fetch f = .ok (some (A f))) →
      one_day_loop fetch (some bl) (pre ++ rest) arrays bidx ci = .ok r →
      ∃ bidx3, one_day_loop fetch (some bl) rest (arrays ++ pre.map A) bidx3
          (ci + (pre.map fun f => nxOf (A f)).sum) = .ok r) ∧
    one_day_loop c4fetch (some ["00:00-23:59"]) c4files [] [] 0 =
      .ok ([c4arrA, c4arrB, c4arrA],
        [⟨"00:00-23:59", -240, 1139⟩, ⟨"00:00-23:59", 660, 1989⟩,
          ⟨"00:00-23:59", 1510, 2889⟩], 2650) := by
  refine ⟨?_, ?_, ?_⟩
  · intro fetch A bl files arrays bidx ci a2 b2 c2 hfetch h
    have := one_day_loop_cursor_sum fetch A bl files arrays bidx ci a2 b2 c2 hfetch h
    omega
  · exact fun fetch A bl pre rest arrays bidx ci r hfetch h =>
      one_day_loop_split fetch A bl pre rest arrays bidx ci r hfetch h
  · rfl

/-- C4 witness: the sum property applied to the concrete [900, 850, 900] run,
whose loop result is supplied by the theorem's own concrete conjunct. -/
theorem C4_cursor_partial_sums_witness :
    (∀ f ∈ c4files, c4fetch f = .ok (some (c4A f))) ∧
    (2650 = 0 + (c4files.map fun f => nxOf (c4A f)).sum ∧ 0 ≤ 2650) :=
  ⟨by intro f hf; fin_cases hf <;> rfl,
    C4_cursor_partial_sums.1 c4fetch c4A ["00:00-23:59"] c4files [] [] 0
      [c4arrA, c4arrB, c4arrA]
      [⟨"00:00-23:59", -240, 1139⟩, ⟨"00:00-23:59", 660, 1989⟩,
        ⟨"00:00-23:59", 1510, 2889⟩] 2650
      (by intro f hf; fin_cases hf <;> rfl) C4_cursor_partial_sums.2.2⟩

/-! ### Sort and rotation lemmas (C5, C6, C10) -/

instance : IsTotal (Nat × String) pairLe := ⟨fun a b => Nat.le_total a.1 b.1⟩

instance : IsTrans (Nat × String) pairLe := ⟨fun _ _ _ hab hbc => Nat.le_trans hab hbc⟩

/-- The stable sort of the (time, file) pairs is sorted ascending by time. -/
theorem sortPairs_sorted (l : List (Nat × String)) : (sortPairs l).Sorted pairLe :=
  List.sorted_insertionSort pairLe l

/-- Filtering at a fixed time key commutes with `orderedInsert`: intervening
elements all have strictly smaller keys, so insertion is stable. -/
theorem filter_orderedInsert_key (t : Nat) (a : Nat × String) :
    ∀ l : List (Nat × String),
      (List.orderedInsert pairLe a l).filter (fun q => q.1 == t) =
        if a.1 == t then a :: l.filter (fun q => q.1 == t)
        else l.filter (fun q => q.1 == t) := by
  intro l
  induction l with
  | nil => simp [List.filter_cons]
  | cons b l ih =>
    simp only [List.orderedInsert]
    by_cases hab : pairLe a b
    · rw [if_pos hab]
      simp [List.filter_cons]
    · rw [if_neg hab]
      have hba : b.1 < a.1 := by
        simp only [pairLe] at hab
        omega
      rw [List.filter_cons, ih]
      by_cases hat : (a.1 == t) = true <;> by_cases hbt : (b.1 == t) = true
      · exfalso
        simp only [beq_iff_eq] at hat hbt
        omega
      · simp [List.filter_cons, hat, hbt]
      · simp [List.filter_cons, hat, hbt]
      · simp [List.filter_cons, hat, hbt]

/-- Stability of the sort: the sublist of pairs carrying any fixed time key is
unchanged, i.e. ties keep their original relative order. -/
theorem sortPairs_filter_key (t : Nat) :
    ∀ l : List (Nat × String),
      (sortPairs l).filter (fun q => q.1 == t) = l.filter (fun q => q.1 == t) := by
  intro l
  induction l with
  | nil => rfl
  | cons a l ih =>
    show (List.orderedInsert pairLe a (sortPairs l)).filter (fun q => q.1 == t) =
      (a :: l).filter (fun q => q.1 == t)
    rw [filter_orderedInsert_key t a (sortPairs l), ih]
    by_cases hat : (a.1 == t) = true <;> simp [List.filter_cons, beq_iff_eq, hat]

/-- `firstGe` finds nothing exactly when every time is below the offset. -/
theorem firstGe_none_iff (off : Nat) :
    ∀ l : List Nat, firstGe off l = none ↔ ∀ t ∈ l, t < off := by
  intro l
  induction l with
  | nil => simp [firstGe]
  | cons t ts ih =>
    by_cases h : off ≤ t
    · simp only [firstGe, if_pos h]
      constructor
      · intro hk; cases hk
      · intro hall; exact absurd (hall t (List.mem_cons_self t ts)) (by omega)
    · have hmap : ((firstGe off ts).map Nat.succ = none) ↔ firstGe off ts = none := by
        cases firstGe off ts <;> simp
      simp only [firstGe, if_neg h, hmap, ih]
      constructor
      · intro hall x hx
        rcases List.mem_cons.mp hx with rfl | hx2
        · omega
        · exact hall x hx2
      · intro hall x hx
        exact hall x (List.mem_cons_of_mem t hx)

/-- What `firstGe off l = some i` means: position `i` is in range, its time is
`>= off`, and every earlier time is `< off`. -/
theorem firstGe_some_spec (off : Nat) :
    ∀ (l : List Nat) (i : Nat), firstGe off l = some i →
      i < l.length ∧ off ≤ l.getD i 0 ∧ ∀ j < i, l.getD j 0 < off := by
  intro l
  induction l with
  | nil => intro i h; simp [firstGe] at h
  | cons t ts ih =>
    intro i h
    by_cases hot : off ≤ t
    · simp only [firstGe, if_pos hot, Option.some.injEq] at h
      subst h
      exact ⟨by simp, by simpa using hot, by omega⟩
    · simp only [firstGe, if_neg hot] at h
      cases hfg : firstGe off ts with
      | none => rw [hfg] at h; cases h
      | some i' =>
        rw [hfg] at h
        have hsucc : i' + 1 = i := by simpa using h
        obtain ⟨h1, h2, h3⟩ := ih i' hfg
        subst hsucc
        refine ⟨by simpa using h1, by simpa using h2, ?_⟩
        intro j hj
        cases j with
        | zero => simpa using (by omega : t < off)
        | succ j' => simpa using h3 j' (by omega)

/-- The second components of the matched (time, file) pairs are exactly the
files matching the chosen pattern, in order. -/
theorem time_file_pairs_map_snd (p : Pat) :
    ∀ files : List String, (time_file_pairs p files).map Prod.snd =
      files.filter fun f => (searchPat p f.data).isSome := by
  intro files
  induction files with
  | nil => rfl
  | cons f fs ih =>
    simp only [time_file_pairs] at ih ⊢
    cases hs : searchPat p f.data with
    | none => simp [List.filterMap_cons, hs, List.filter_cons, ih]
    | some ds => simp [List.filterMap_cons, hs, List.filter_cons, ih]

/-- The rotated output is a permutation of the pattern-matched input files. -/
theorem patOutput_perm (p : Pat) (files : List String) (offset : String) :
    (patOutput p files offset).Perm
      (files.filter fun f => (searchPat p f.data).isSome) := by
  unfold patOutput
  have h1 : ((sortPairs (time_file_pairs p files)).drop
        (rotIdx (sortPairs (time_file_pairs p files)) (hhmmss_to_seconds offset.data))).map
          Prod.snd ++
      ((sortPairs (time_file_pairs p files)).take
        (rotIdx (sortPairs (time_file_pairs p files)) (hhmmss_to_seconds offset.data))).map
          Prod.snd =
      (((sortPairs (time_file_pairs p files)).drop
        (rotIdx (sortPairs (time_file_pairs p files)) (hhmmss_to_seconds offset.data))) ++
      ((sortPairs (time_file_pairs p files)).take
        (rotIdx (sortPairs (time_file_pairs p files)) (hhmmss_to_seconds offset.data)))).map
          Prod.snd := by
    rw [List.map_append]
  rw [h1]
  refine ((List.perm_append_comm.trans (by rw [List.take_append_drop])).map Prod.snd).trans ?_
  rw [← time_file_pairs_map_snd p files]
  exact (List.perm_insertionSort pairLe (time_file_pairs p files)).map Prod.snd

/-- Every file emitted by the rotated pipeline came from the input set. -/
theorem mem_patOutput (p : Pat) (files : List String) (offset : String) (f : String)
    (hf : f ∈ patOutput p files offset) : f ∈ files := by
  have := (patOutput_perm p files offset).mem_iff.mp hf
  exact (List.mem_filter.mp this).1

/-! ### C5 -/

/-- C5: `circular_sort` stable-sorts the pattern-matched pairs ascending by
time (sortedness and tie stability), emits the sorted order unchanged when no
time reaches the offset, rotates at the first sorted position whose time is
`>= offset` otherwise, and on times [093000, 100000, 080000] with offset
090000 produces [093000, 100000, 080000]. -/
theorem C5_stable_sort_rotation (f0 : String) (rest : List String) (offset : String)
    (p : Pat) (hp : choosePat f0 = some p) :
    ((sortPairs (time_file_pairs p (f0 :: rest))).Sorted pairLe) ∧
    (∀ t : Nat, (sortPairs (time_file_pairs p (f0 :: rest))).filter (fun q => q.1 == t) =
      (time_file_pairs p (f0 :: rest)).filter (fun q => q.1 == t)) ∧
    ((∀ q ∈ time_file_pairs p (f0 :: rest), q.1 < hhmmss_to_seconds offset.data) →
      circular_sort (f0 :: rest) offset =
        .ok ((sortPairs (time_file_pairs p (f0 :: rest))).map Prod.snd)) ∧
    (∀ i, firstGe (hhmmss_to_seconds offset.data)
        ((sortPairs (time_file_pairs p (f0 :: rest))).map Prod.fst) = some i →
      circular_sort (f0 :: rest) offset =
        .ok (((sortPairs (time_file_pairs p (f0 :: rest))).drop i).map Prod.snd ++
          ((sortPairs (time_file_pairs p (f0 :: rest))).take i).map Prod.snd) ∧
      i < (sortPairs (time_file_pairs p (f0 :: rest))).length ∧
      hhmmss_to_seconds offset.data ≤
        ((sortPairs (time_file_pairs p (f0 :: rest))).map Prod.fst).getD i 0 ∧
      ∀ j < i, ((sortPairs (time_file_pairs p (f0 :: rest))).map Prod.fst).getD j 0 <
        hhmmss_to_seconds offset.data) ∧
    circular_sort ["AA_093000_a.fit.gz", "AA_100000_b.fit.gz", "AA_080000_c.fit.gz"]
        "090000" =
      .ok ["AA_093000_a.fit.gz", "AA_100000_b.fit.gz", "AA_080000_c.fit.gz"] := by
  refine ⟨sortPairs_sorted _, fun t => sortPairs_filter_key t _, ?_, ?_, rfl⟩
  · intro hall
    have hnone : firstGe (hhmmss_to_seconds offset.data)
        ((sortPairs (time_file_pairs p (f0 :: rest))).map Prod.fst) = none := by
      rw [firstGe_none_iff]
      intro x hx
      obtain ⟨q, hq, rfl⟩ := List.mem_map.mp hx
      exact hall q ((List.mem_insertionSort pairLe).mp hq)
    simp [circular_sort, hp, patOutput, rotIdx, hnone]
  · intro i hi
    obtain ⟨h1, h2, h3⟩ := firstGe_some_spec _ _ i hi
    refine ⟨by simp [circular_sort, hp, patOutput, rotIdx, hi], by simpa using h1, h2, h3⟩

/-- C5 witness: the concrete rotation example, with pattern A chosen from the
first file. -/
theorem C5_stable_sort_rotation_witness :
    choosePat "AA_093000_a.fit.gz" = some Pat.A ∧
    circular_sort ["AA_093000_a.fit.gz", "AA_100000_b.fit.gz", "AA_080000_c.fit.gz"]
        "090000" =
      .ok ["AA_093000_a.fit.gz", "AA_100000_b.fit.gz", "AA_080000_c.fit.gz"] :=
  ⟨rfl, (C5_stable_sort_rotation "AA_093000_a.fit.gz"
    ["AA_100000_b.fit.gz", "AA_080000_c.fit.gz"] "090000" Pat.A rfl).2.2.2.2⟩

/-! ### C6 -/

/-- C6: whenever `circular_sort` returns an output, that output is a
permutation of the subset of the input filenames that match the chosen
timestamp pattern: the sort and rotation drop and duplicate nothing. -/
theorem C6_output_permutation (files : List String) (offset : String) (out : List String)
    (h : circular_sort files offset = .ok out) :
    ∃ f0 rest p, files = f0 :: rest ∧ choosePat f0 = some p ∧
      out.Perm (files.filter fun f => (searchPat p f.data).isSome) := by
  cases files with
  | nil => simp [circular_sort] at h
  | cons f0 rest =>
    cases hcp : choosePat f0 with
    | none => simp [circular_sort, hcp] at h
    | some p =>
      simp only [circular_sort, hcp, Except.ok.injEq] at h
      exact ⟨f0, rest, p, rfl, hcp, h ▸ patOutput_perm p (f0 :: rest) offset⟩

/-- C6 witness: a one-file set is returned unchanged and is a permutation of
its matched subset. -/
theorem C6_output_permutation_witness :
    circular_sort ["AA_093000_a.fit.gz"] "000000" = .ok ["AA_093000_a.fit.gz"] ∧
    ∃ f0 rest p, ["AA_093000_a.fit.gz"] = f0 :: rest ∧ choosePat f0 = some p ∧
      List.Perm ["AA_093000_a.fit.gz"]
        (["AA_093000_a.fit.gz"].filter fun f => (searchPat p f.data).isSome) :=
  ⟨rfl, C6_output_permutation ["AA_093000_a.fit.gz"] "000000" ["AA_093000_a.fit.gz"] rfl⟩

/-! ### C10 -/

/-- On a file list with no pattern-A match anywhere, the download loop can only
abort or skip every file: it never extends its accumulators. -/
theorem one_day_loop_patternB (fetch : String → Except Unit (Option Arr)) (bl : List String) :
    ∀ (files : List String) (arrays : List Arr) (bidx : List BurstIdx) (ci : Nat),
      (∀ f ∈ files, searchTimeA f.data = none) →
      one_day_loop fetch (some bl) files arrays bidx ci = .error () ∨
      one_day_loop fetch (some bl) files arrays bidx ci = .ok (arrays, bidx, ci) := by
  intro files
  induction files with
  | nil => intro arrays bidx ci _; right; rfl
  | cons g gs ih =>
    intro arrays bidx ci hA
    cases hfg : fetch g with
    | error e => left; cases e; simp [one_day_loop, hfg]
    | ok o =>
      cases o with
      | none =>
        simp only [one_day_loop, hfg]
        exact ih arrays bidx ci fun f hf => hA f (List.mem_cons_of_mem g hf)
      | some arr =>
        left
        have hfb : find_bursts arr bl g bidx ci = .error () := by
          simp [find_bursts, hA g (List.mem_cons_self g gs)]
        simp [one_day_loop, hfg, hfb]

/-- C10: `find_bursts` recovers the file start time with pattern A only, so on
a pattern-B day (no filename matches pattern A) every `find_bursts` call fails
(`.group(1)` on a failed search raises), and `one_day` with burst intervals
present can never complete — even though `circular_sort` happily accepts the
same set under pattern B. -/
theorem C10_patternB_day_cannot_align (fetch : String → Except Unit (Option Arr))
    (station_files : List String) (time : String) (bl : List String)
    (hA : ∀ f ∈ station_files, searchTimeA f.data = none) :
    one_day fetch station_files time (some bl) = .error () ∧
    (∀ (arr : Arr) (results : List BurstIdx) (ci : Nat) (f : String), f ∈ station_files →
      find_bursts arr bl f results ci = .error ()) ∧
    (∀ f0 rest, station_files = f0 :: rest → (searchTimeB f0.data).isSome →
      ∃ out, circular_sort station_files time = .ok out) := by
  refine ⟨?_, ?_, ?_⟩
  · cases station_files with
    | nil => rfl
    | cons f0 rest =>
      cases hcs : circular_sort (f0 :: rest) time with
      | error e => cases e; simp [one_day, hcs]
      | ok sorted =>
        have hsortedA : ∀ f ∈ sorted, searchTimeA f.data = none := by
          intro f hf
          cases hcp : choosePat f0 with
          | none => rw [circular_sort, hcp] at hcs; cases hcs
          | some p =>
            rw [circular_sort, hcp] at hcs
            have hout : patOutput p (f0 :: rest) time = sorted := by
              injection hcs
            exact hA f (mem_patOutput p (f0 :: rest) time f (hout ▸ hf))
        rcases one_day_loop_patternB fetch bl sorted [] [] 0 hsortedA with hE | hO
        · simp [one_day, hcs, hE]
        · simp [one_day, hcs, hO]
  · intro arr results ci f hf
    simp [find_bursts, hA f hf]
  · intro f0 rest hsf hB
    subst hsf
    refine ⟨patOutput .B (f0 :: rest) time, ?_⟩
    have h0 : searchTimeA f0.data = none := hA f0 (List.mem_cons_self f0 rest)
    simp [circular_sort, choosePat, h0, hB]

/-- C10 witness: a one-file pattern-B day with every download succeeding still
aborts when burst intervals are present. -/
theorem C10_patternB_day_cannot_align_witness :
    (∀ f ∈ ["ST_123456i.fit.gz"], searchTimeA f.data = none) ∧
    one_day (fun _ => .ok (some [[0, 0]])) ["ST_123456i.fit.gz"] "000000"
      (some ["10:00-10:30"]) = .error () :=
  ⟨by decide,
    (C10_patternB_day_cannot_align (fun _ => .ok (some [[0, 0]])) ["ST_123456i.fit.gz"]
      "000000" ["10:00-10:30"] (by decide)).1⟩

/-! ### C8 -/

/-- The skip conditions of the label-table loop, combined: blank line, comment
prefix, separator prefix, or fewer than 4 tab-separated fields. -/
def rowSkipped (line : List Char) : Bool :=
  (trimChars line).isEmpty || startsWithChar '#' line || startsWithChar '-' line ||
    decide ((splitOnChar '\t' line []).length < 4)

/-- What a non-skipped row contributes, worded from the spec: the time-range
field of a row whose date field equals the requested date and whose
comma-separated station list contains the requested station. -/
def rowKeep (date station line : List Char) : Option (List Char) :=
  match splitOnChar '\t' line [] with
  | [line_date, time_range, _, stations] =>
    if line_date = date ∧ station ∈ (splitOnChar ',' stations []).map trimChars then
      some time_range
    else none
  | _ => none

/-- A list of length 4 is a literal 4-element list. -/
theorem list_len4 {α : Type} : ∀ l : List α, l.length = 4 → ∃ a b c d, l = [a, b, c, d] := by
  intro l h
  rcases l with _ | ⟨a, _ | ⟨b, _ | ⟨c, _ | ⟨d, _ | ⟨e, t⟩⟩⟩⟩⟩ <;> simp_all

/-- A list of length above 4 starts with five elements. -/
theorem list_len5 {α : Type} : ∀ l : List α, 4 < l.length →
    ∃ a b c d e t, l = a :: b :: c :: d :: e :: t := by
  intro l h
  rcases l with _ | ⟨a, _ | ⟨b, _ | ⟨c, _ | ⟨d, _ | ⟨e, t⟩⟩⟩⟩⟩ <;> simp_all

/-- When every non-skipped line has exactly 4 tab-separated fields, the label
loop succeeds and emits, in order, the kept time-range fields. -/
theorem extractLoop_all_four (date station : List Char) :
    ∀ (lines acc : List (List Char)),
      (∀ l ∈ lines, rowSkipped l = false → (splitOnChar '\t' l []).length = 4) →
      extractLoop date station lines acc =
        .ok (acc ++ lines.filterMap fun l =>
          if rowSkipped l then none else rowKeep date station l) := by
  intro lines
  induction lines with
  | nil => intro acc _; simp [extractLoop]
  | cons line rest ih =>
    intro acc hall
    have hrest : ∀ l ∈ rest, rowSkipped l = false → (splitOnChar '\t' l []).length = 4 :=
      fun l hl => hall l (List.mem_cons_of_mem line hl)
    by_cases h1 : ((trimChars line).isEmpty || startsWithChar '#' line ||
        startsWithChar '-' line) = true
    · have hskip : rowSkipped line = true := by
        simp only [rowSkipped, Bool.or_eq_true] at h1 ⊢
        tauto
      simp only [extractLoop, if_pos h1, List.filterMap_cons, hskip, if_pos rfl]
      exact ih acc hrest
    · have h1b : ((trimChars line).isEmpty || startsWithChar '#' line ||
          startsWithChar '-' line) = false := by
        simpa using h1
      by_cases hlt : (splitOnChar '\t' line []).length < 4
      · have hskip : rowSkipped line = true := by
          simp only [rowSkipped]
          rw [h1b]
          simp [hlt]
        simp only [extractLoop, h1b, Bool.false_eq_true, if_neg (by simp : ¬ False),
          if_pos hlt, List.filterMap_cons, hskip, if_pos rfl]
        exact ih acc hrest
      · have hns : rowSkipped line = false := by
          simp only [rowSkipped]
          rw [h1b]
          simp [hlt]
        obtain ⟨a, b, c, d, hp⟩ := list_len4 _ (hall line (List.mem_cons_self line rest) hns)
        have hrk : rowKeep date station line =
            if a = date ∧ station ∈ (splitOnChar ',' d []).map trimChars then some b
            else none := by
          simp only [rowKeep, hp]
        have hstep : extractLoop date station (line :: rest) acc =
            if a = date ∧ station ∈ (splitOnChar ',' d []).map trimChars then
              extractLoop date station rest (acc ++ [b])
            else extractLoop date station rest acc := by
          simp only [extractLoop, h1b, Bool.false_eq_true, if_neg (by simp : ¬ False),
            if_neg hlt, hp]
          simp
        rw [hstep, List.filterMap_cons, hns]
        simp only [Bool.false_eq_true, if_neg (by simp : ¬ False), hrk]
        by_cases hkeep : (a = date ∧ station ∈ (splitOnChar ',' d []).map trimChars)
        · rw [if_pos hkeep, if_pos hkeep, ih (acc ++ [b]) hrest]
          simp [List.append_assoc]
        · rw [if_neg hkeep, if_neg hkeep, ih acc hrest]

/-- A single non-skipped line with more than 4 tab-separated fields makes the
label loop raise, whatever else the table contains. -/
theorem extractLoop_error_of_wide (date station : List Char) :
    ∀ (lines acc : List (List Char)),
      (∃ l ∈ lines, rowSkipped l = false ∧ 4 < (splitOnChar '\t' l []).length) →
      extractLoop date station lines acc = .error () := by
  intro lines
  induction lines with
  | nil => rintro acc ⟨l, hl, _⟩; cases hl
  | cons line rest ih =>
    rintro acc ⟨l, hl, hns, hlen⟩
    by_cases h1 : ((trimChars line).isEmpty || startsWithChar '#' line ||
        startsWithChar '-' line) = true
    · simp only [extractLoop, if_pos h1]
      refine ih acc ⟨l, ?_, hns, hlen⟩
      rcases List.mem_cons.mp hl with rfl | hl2
      · exfalso
        simp only [rowSkipped, Bool.or_eq_false_iff] at hns
        exact absurd h1 (by simp [hns.1])
      · exact hl2
    · have h1b : ((trimChars line).isEmpty || startsWithChar '#' line ||
          startsWithChar '-' line) = false := by
        simpa using h1
      by_cases hlt : (splitOnChar '\t' line []).length < 4
      · simp only [extractLoop, h1b, Bool.false_eq_true, if_neg (by simp : ¬ False),
          if_pos hlt]
        refine ih acc ⟨l, ?_, hns, hlen⟩
        rcases List.mem_cons.mp hl with rfl | hl2
        · omega
        · exact hl2
      · by_cases h4 : (splitOnChar '\t' line []).length = 4
        · obtain ⟨a, b, c, d, hp⟩ := list_len4 _ h4
          have hl2 : l ∈ rest := by
            rcases List.mem_cons.mp hl with rfl | hl2
            · omega
            · exact hl2
          have hstep : extractLoop date station (line :: rest) acc =
              if a = date ∧ station ∈ (splitOnChar ',' d []).map trimChars then
                extractLoop date station rest (acc ++ [b])
              else extractLoop date station rest acc := by
            simp only [extractLoop, h1b, Bool.false_eq_true, if_neg (by simp : ¬ False),
              if_neg hlt, hp]
            simp
          rw [hstep]
          by_cases hkeep : (a = date ∧ station ∈ (splitOnChar ',' d []).map trimChars)
          · rw [if_pos hkeep]
            exact ih (acc ++ [b]) ⟨l, hl2, hns, hlen⟩
          · rw [if_neg hkeep]
            exact ih acc ⟨l, hl2, hns, hlen⟩
        · have hwide : 4 < (splitOnChar '\t' line []).length := by omega
          obtain ⟨a, b, c, d, e, t, hp⟩ := list_len5 _ hwide
          simp only [extractLoop, h1b, Bool.false_eq_true, if_neg (by simp : ¬ False),
            if_neg hlt, hp]
          rw [if_neg (by simp only [List.length_cons]; omega)]

/-- C8 counterexample: a matching row with five tab-separated fields (at least
4, as the claim allows) does not get its time range kept — the 4-way unpacking
raises and the whole run aborts. -/
theorem C8_cex_five_field_row_aborts :
    (splitOnChar '\t' ("20230101\t03:05-03:06\tIII\tAAA\tremark").data []).length = 5 ∧
    rowSkipped ("20230101\t03:05-03:06\tIII\tAAA\tremark").data = false ∧
    extract_bursts ["20230101\t03:00-03:01\tIII\tAAA, BBB",
      "20230101\t03:05-03:06\tIII\tAAA\tremark"] 2023 1 1 "AAA" = .error () :=
  ⟨rfl, rfl, rfl⟩

/-- C8 amended: rows that are blank, comment- or separator-prefixed, or have
fewer than 4 fields are silently skipped; among tables whose remaining rows all
have exactly 4 tab-separated fields, `extract_bursts` returns, in table order,
the time-range fields of the rows matching the requested date and station; but
any remaining row with more than 4 fields aborts the run with an error. -/
theorem C8_exactly_four_fields (lines : List String) (year month day : Nat)
    (station : String) :
    ((∀ l ∈ lines, rowSkipped l.data = false → (splitOnChar '\t' l.data []).length = 4) →
      extract_bursts lines year month day station =
        .ok (lines.filterMap fun l =>
          if rowSkipped l.data then none
          else rowKeep (padNum 4 year ++ padNum 2 month ++ padNum 2 day).data
            station.data l.data)) ∧
    ((∃ l ∈ lines, rowSkipped l.data = false ∧ 4 < (splitOnChar '\t' l.data []).length) →
      extract_bursts lines year month day station = .error ()) := by
  constructor
  · intro hall
    unfold extract_bursts
    rw [extractLoop_all_four _ _ (lines.map String.data) []
      (by intro l hl; obtain ⟨l0, hl0, rfl⟩ := List.mem_map.mp hl; exact hall l0 hl0)]
    rw [List.nil_append, List.filterMap_map]
    rfl
  · rintro ⟨l, hl, h⟩
    unfold extract_bursts
    exact extractLoop_error_of_wide _ _ _ [] ⟨l.data, List.mem_map_of_mem String.data hl, h⟩

/-- C8 witness: a table with one matching 4-field row and one comment line is
parsed successfully into its single time range. -/
theorem C8_exactly_four_fields_witness :
    (∀ l ∈ ["20230101\t03:00-03:01\tIII\tAAA, BBB", "# comment"],
      rowSkipped l.data = false → (splitOnChar '\t' l.data []).length = 4) ∧
    extract_bursts ["20230101\t03:00-03:01\tIII\tAAA, BBB", "# comment"] 2023 1 1 "AAA" =
      .ok (["20230101\t03:00-03:01\tIII\tAAA, BBB", "# comment"].filterMap fun l =>
        if rowSkipped l.data then none
        else rowKeep (padNum 4 2023 ++ padNum 2 1 ++ padNum 2 1).data "AAA".data l.data) :=
  ⟨by decide,
    (C8_exactly_four_fields ["20230101\t03:00-03:01\tIII\tAAA, BBB", "# comment"]
      2023 1 1 "AAA").1 (by decide)⟩

/-! ### C9 -/

/-- Row `i` of a pointwise row concatenation is the concatenation of the two
rows `i`. -/
theorem zipWith_append_getD :
    ∀ (a b : List (List Int)) (i : Nat), i < a.length → i < b.length →
      (List.zipWith (· ++ ·) a b).getD i [] = a.getD i [] ++ b.getD i [] := by
  intro a
  induction a with
  | nil => intro b i h _; simp at h
  | cons x xs ih =>
    intro b i ha hb
    cases b with
    | nil => simp at hb
    | cons y ys =>
      cases i with
      | zero => simp
      | succ i' =>
        simpa using ih ys i' (by simpa using ha) (by simpa using hb)

/-- Shape and rows of `np.concatenate(..., axis=1)` over arrays of a common
height: the result keeps the height and its row `i` is the concatenation of
the rows `i` of the inputs in order. -/
theorem concat_axis1_spec (ny : Nat) :
    ∀ (rest : List Arr) (a : Arr), a.length = ny → (∀ x ∈ rest, x.length = ny) →
      (concat_axis1 a rest).length = ny ∧
      ∀ i, i < ny → (concat_axis1 a rest).getD i [] =
        a.getD i [] ++ ((rest.map fun x => x.getD i []).flatten) := by
  intro rest
  induction rest with
  | nil =>
    intro a ha _
    exact ⟨ha, fun i _ => by simp [concat_axis1]⟩
  | cons b bs ih =>
    intro a ha hall
    have hb : b.length = ny := hall b (List.mem_cons_self b bs)
    have hz : (List.zipWith (· ++ ·) a b).length = ny := by
      rw [List.length_zipWith]
      omega
    have hih := ih (List.zipWith (· ++ ·) a b) hz
      fun x hx => hall x (List.mem_cons_of_mem b hx)
    have hfold : concat_axis1 a (b :: bs) = concat_axis1 (List.zipWith (· ++ ·) a b) bs := rfl
    refine ⟨by rw [hfold]; exact hih.1, ?_⟩
    intro i hi
    rw [hfold, hih.2 i hi, zipWith_append_getD a b i (by omega) (by omega)]
    simp [List.append_assoc]

/-- With no burst list, the download loop of `one_day` collects exactly the
decoded arrays in order and touches nothing else. -/
theorem one_day_loop_none_collect (fetch : String → Except Unit (Option Arr))
    (A : String → Arr) :
    ∀ (files : List String) (arrays : List Arr) (bidx : List BurstIdx) (ci : Nat),
      (∀ f ∈ files, fetch f = .ok (some (A f))) →
      one_day_loop fetch none files arrays bidx ci = .ok (arrays ++ files.map A, bidx, ci) := by
  intro files
  induction files with
  | nil => intro arrays bidx ci _; simp [one_day_loop]
  | cons g gs ih =>
    intro arrays bidx ci hfetch
    have h1 : fetch g = .ok (some (A g)) := hfetch g (List.mem_cons_self g gs)
    simp only [one_day_loop, h1]
    rw [ih (arrays ++ [A g]) bidx ci fun f hf => hfetch f (List.mem_cons_of_mem g hf)]
    simp

/-- C9: for a day whose files all decode to arrays of a common height,
`one_day` returns exactly the time-axis concatenation of the decoded arrays in
processing order followed by a reversal of the frequency axis: the result has
the same height, the raw concatenation's row `i` is the concatenation of the
files' rows `i`, row `i` of the output is row `ny-1-i` of the raw
concatenation, and in particular output row 0 is the raw concatenation's last
row. -/
theorem C9_concat_then_flip (fetch : String → Except Unit (Option Arr)) (A : String → Arr)
    (station_files : List String) (time : String) (sorted : List String)
    (f0 : String) (frest : List String) (ny : Nat)
    (hsort : circular_sort station_files time = .ok sorted)
    (hs : sorted = f0 :: frest)
    (hfetch : ∀ f ∈ sorted, fetch f = .ok (some (A f)))
    (hny : ∀ f ∈ sorted, (A f).length = ny) :
    one_day fetch station_files time none =
      .ok (flipud (concat_axis1 (A f0) (frest.map A)), []) ∧
    (concat_axis1 (A f0) (frest.map A)).length = ny ∧
    (∀ i, i < ny → (concat_axis1 (A f0) (frest.map A)).getD i [] =
      ((f0 :: frest).map fun f => (A f).getD i []).flatten) ∧
    (∀ i, i < ny → (flipud (concat_axis1 (A f0) (frest.map A))).getD i [] =
      (concat_axis1 (A f0) (frest.map A)).getD (ny - 1 - i) []) ∧
    (0 < ny → (flipud (concat_axis1 (A f0) (frest.map A))).getD 0 [] =
      (concat_axis1 (A f0) (frest.map A)).getD (ny - 1) []) := by
  subst hs
  have hcs := concat_axis1_spec ny (frest.map A) (A f0)
    (hny f0 (List.mem_cons_self f0 frest))
    (by intro x hx
        obtain ⟨g, hg, rfl⟩ := List.mem_map.mp hx
        exact hny g (List.mem_cons_of_mem f0 hg))
  have hlen : (concat_axis1 (A f0) (frest.map A)).length = ny := hcs.1
  have hrow : ∀ i, i < ny → (concat_axis1 (A f0) (frest.map A)).getD i [] =
      ((f0 :: frest).map fun f => (A f).getD i []).flatten := by
    intro i hi
    rw [hcs.2 i hi]
    simp [List.map_map]
    rfl
  have hrev : ∀ i, i < ny → (flipud (concat_axis1 (A f0) (frest.map A))).getD i [] =
      (concat_axis1 (A f0) (frest.map A)).getD (ny - 1 - i) [] := by
    intro i hi
    have hi2 : i < (concat_axis1 (A f0) (frest.map A)).length := by omega
    calc (flipud (concat_axis1 (A f0) (frest.map A))).getD i []
        = ((concat_axis1 (A f0) (frest.map A)).reverse[i]?).getD [] := by
          simp only [flipud, List.getD_eq_getElem?_getD]
      _ = ((concat_axis1 (A f0) (frest.map A))[(concat_axis1 (A f0)
            (frest.map A)).length - 1 - i]?).getD [] := by
          rw [List.getElem?_reverse hi2]
      _ = (concat_axis1 (A f0) (frest.map A)).getD (ny - 1 - i) [] := by
          rw [hlen, List.getD_eq_getElem?_getD]
  refine ⟨?_, hlen, hrow, hrev, fun h0 => by simpa using hrev 0 h0⟩
  cases station_files with
  | nil => simp [circular_sort] at hsort
  | cons sf0 srest =>
    simp only [one_day, hsort]
    rw [one_day_loop_none_collect fetch A (f0 :: frest) [] [] 0 hfetch]
    simp

/-- Decode oracle of the C9 witness: one file, a 2-by-2 array. -/
def c9A : String → Arr := fun _ => [[1, 2], [3, 4]]

/-- Fetch oracle of the C9 witness. -/
def c9fetch : String → Except Unit (Option Arr) := fun _ => .ok (some [[1, 2], [3, 4]])

/-- C9 witness: a one-file day is returned as its decoded array with the
frequency axis reversed. -/
theorem C9_concat_then_flip_witness :
    circular_sort ["AA_010000_x.fit.gz"] "000000" = .ok ["AA_010000_x.fit.gz"] ∧
    (∀ f ∈ ["AA_010000_x.fit.gz"], c9fetch f = .ok (some (c9A f))) ∧
    (∀ f ∈ ["AA_010000_x.fit.gz"], (c9A f).length = 2) ∧
    one_day c9fetch ["AA_010000_x.fit.gz"] "000000" none =
      .ok (flipud (concat_axis1 (c9A "AA_010000_x.fit.gz") (List.map c9A [])), []) :=
  ⟨rfl, fun _ _ => rfl, fun _ _ => rfl,
    (C9_concat_then_flip c9fetch c9A ["AA_010000_x.fit.gz"] "000000" ["AA_010000_x.fit.gz"]
      "AA_010000_x.fit.gz" [] 2 rfl rfl (fun _ _ => rfl) fun _ _ => rfl).1⟩

end Helio
